import Mathlib

/-!
# Car-assembly viewer: animation state machine, bounds and per-mesh parameters

Shallow embedding of `src/main/main.cpp`.

Number model.  The C++ `float` values are embedded as rationals and the
arithmetic operators as exact rational arithmetic.  Every constant used by the
animation state machine (`0.25`, `1.0`, `5.0`, `0.5`) is a dyadic rational that
binary32 represents exactly, and `min`/`max`/comparison never round, so the
embedding is exact for the state machine on the values that occur
(`quarterInv_runInputs`) and for the minimum / maximum part of the bounds fold;
the midpoint `(min + max) * 0.5` is the source expression evaluated exactly.  The two C library calls (`sin`, `sqrt`) are
not defined here: they are fields of a `Libm` record that every function using
them takes as an argument, so results hold for whatever functions the platform
supplies.  Infinities and NaN have no counterpart; `1 / 0` is `0` in the
rationals, so statements about `normalize` are made for non-zero vectors only.
Properties that depend on how binary32 rounds (the exact range of `random01`,
the exact length of a normalised vector, the exact range of `mix`) are not
stated in this development.

The camera / window part of `processInput` (lines 347-363) only touches the
`camera` object and the window close flag, which are disjoint from the
animation globals; it is not part of the embedded state.
-/

namespace CarViewer

/-! ## GLM scalar helpers (`glm/detail/func_common.inl`) -/

/-- GLM `min(x, y)`: `(y < x) ? y : x`. -/
def glmMin (x y : ℚ) : ℚ := if y < x then y else x

/-- GLM `max(x, y)`: `(x < y) ? y : x`. -/
def glmMax (x y : ℚ) : ℚ := if x < y then y else x

/-- GLM `clamp(x, minVal, maxVal)`: `min(max(x, minVal), maxVal)`. -/
def glmClamp (x minVal maxVal : ℚ) : ℚ := glmMin (glmMax x minVal) maxVal

/-! ## Animation state (globals at lines 30-41) -/

/-- The timing and animation globals of `main.cpp`. -/
structure AnimState where
  deltaTime : ℚ
  lastFrame : ℚ
  animationPaused : Bool
  animationSpeed : ℚ
  animationTime : ℚ
  spacePressedLast : Bool
  upPressedLast : Bool
  downPressedLast : Bool
  resetPressedLast : Bool
  deriving DecidableEq

/-- Initial values of the globals, as written in their declarations. -/
def initState : AnimState where
  deltaTime := 0
  lastFrame := 0
  animationPaused := false
  animationSpeed := 1
  animationTime := 0
  spacePressedLast := false
  upPressedLast := false
  downPressedLast := false
  resetPressedLast := false

/-- What `glfwGetKey(window, KEY) == GLFW_PRESS` reports, in one call of
`processInput`, for the four keys that drive the animation. -/
structure Keys where
  space : Bool
  up : Bool
  down : Bool
  reset : Bool
  deriving DecidableEq

/-- Lines 365-368: pause toggle on a rising edge of SPACE. -/
def stepSpace (s : AnimState) (spacePressed : Bool) : AnimState :=
  let s1 := if spacePressed && !s.spacePressedLast
            then { s with animationPaused := !s.animationPaused } else s
  { s1 with spacePressedLast := spacePressed }

/-- Lines 370-373: speed up by 0.25, clamped, on a rising edge of UP. -/
def stepUp (s : AnimState) (upPressed : Bool) : AnimState :=
  let s1 := if upPressed && !s.upPressedLast
            then { s with animationSpeed := glmClamp (s.animationSpeed + 1/4) (1/4) 5 } else s
  { s1 with upPressedLast := upPressed }

/-- Lines 375-378: slow down by 0.25, clamped, on a rising edge of DOWN. -/
def stepDown (s : AnimState) (downPressed : Bool) : AnimState :=
  let s1 := if downPressed && !s.downPressedLast
            then { s with animationSpeed := glmClamp (s.animationSpeed - 1/4) (1/4) 5 } else s
  { s1 with downPressedLast := downPressed }

/-- Lines 380-387: reset of speed, clock and pause flag on a rising edge of R. -/
def stepReset (s : AnimState) (resetPressed : Bool) : AnimState :=
  let s1 := if resetPressed && !s.resetPressedLast
            then { s with animationSpeed := 1, animationTime := 0, animationPaused := false }
            else s
  { s1 with resetPressedLast := resetPressed }

/-- The animation part of `processInput` (lines 365-387): the four key blocks
run in source order. -/
def processInput (s : AnimState) (k : Keys) : AnimState :=
  stepReset (stepDown (stepUp (stepSpace s k.space) k.up) k.down) k.reset

/-- Lines 240-246: one iteration of the render loop up to the clock update.
`currentFrame` is the value read from `glfwGetTime()`. -/
def frame (s : AnimState) (k : Keys) (currentFrame : ℚ) : AnimState :=
  let s1 := { s with deltaTime := currentFrame - s.lastFrame, lastFrame := currentFrame }
  let s2 := processInput s1 k
  if !s2.animationPaused
  then { s2 with animationTime := s2.animationTime + s2.deltaTime * s2.animationSpeed }
  else s2

/-- The state after a sequence of `processInput` calls. -/
def runInputs (s : AnimState) (ks : List Keys) : AnimState :=
  ks.foldl processInput s

/-- The state after a sequence of frames, each given by the keys polled and
the time stamp read in it. -/
def runFrames (s : AnimState) (fs : List (Keys × ℚ)) : AnimState :=
  fs.foldl (fun st f => frame st f.1 f.2) s

/-! ## Invariants of the animation state -/

/-- The speed invariant kept by every operation. -/
def SpeedInv (s : AnimState) : Prop := 1/4 ≤ s.animationSpeed ∧ s.animationSpeed ≤ 5

/-- The speed is a whole number of quarters between 1 and 20. -/
def QuarterInv (s : AnimState) : Prop :=
  ∃ n : ℕ, 1 ≤ n ∧ n ≤ 20 ∧ s.animationSpeed = (n : ℚ) / 4

/-! ## Vectors and the GLM functions used by the source -/

/-- A `glm::vec3` value. -/
structure Vec3 where
  x : ℚ
  y : ℚ
  z : ℚ
  deriving DecidableEq

/-- The constructor `glm::vec3(a)`: all three components equal to `a`. -/
def Vec3.splat (a : ℚ) : Vec3 := ⟨a, a, a⟩

instance : Add Vec3 := ⟨fun a b => ⟨a.x + b.x, a.y + b.y, a.z + b.z⟩⟩

instance : Sub Vec3 := ⟨fun a b => ⟨a.x - b.x, a.y - b.y, a.z - b.z⟩⟩

/-- Component-wise product `a * b` of two vectors. -/
instance : Mul Vec3 := ⟨fun a b => ⟨a.x * b.x, a.y * b.y, a.z * b.z⟩⟩

/-- Vector times scalar, `v * s`. -/
instance : HMul Vec3 ℚ Vec3 := ⟨fun v s => ⟨v.x * s, v.y * s, v.z * s⟩⟩

/-- GLM `min` on vectors: component-wise. -/
def vmin (a b : Vec3) : Vec3 := ⟨glmMin a.x b.x, glmMin a.y b.y, glmMin a.z b.z⟩

/-- GLM `max` on vectors: component-wise. -/
def vmax (a b : Vec3) : Vec3 := ⟨glmMax a.x b.x, glmMax a.y b.y, glmMax a.z b.z⟩

/-- GLM `dot` for `vec3`: `tmp = a * b; tmp.x + tmp.y + tmp.z`. -/
def dot (a b : Vec3) : ℚ :=
  let tmp := a * b
  tmp.x + tmp.y + tmp.z

/-- GLM `cross`. -/
def cross (a b : Vec3) : Vec3 :=
  ⟨a.y * b.z - b.y * a.z, a.z * b.x - b.z * a.x, a.x * b.y - b.x * a.y⟩

/-- GLM `fract`: `x - floor(x)`. -/
def fract (x : ℚ) : ℚ := x - (⌊x⌋ : ℤ)

/-- GLM `mix(x, y, a)`: `x * (1 - a) + y * a`. -/
def mix (x y a : ℚ) : ℚ := x * (1 - a) + y * a

/-- The two C library functions the source reaches through GLM.  They are
parameters of the embedding. -/
structure Libm where
  sin : ℚ → ℚ
  sqrt : ℚ → ℚ

/-- GLM `length`: `sqrt(dot(v, v))`. -/
def length (L : Libm) (v : Vec3) : ℚ := L.sqrt (dot v v)

/-- GLM `inversesqrt`: `1 / sqrt(x)`. -/
def inversesqrt (L : Libm) (x : ℚ) : ℚ := 1 / L.sqrt x

/-- GLM `normalize`: `v * inversesqrt(dot(v, v))`. -/
def normalize (L : Libm) (v : Vec3) : Vec3 := v * inversesqrt L (dot v v)

/-! ## Model data (the parts of `learnopengl/model.h` the source reads) -/

/-- A vertex; only its `Position` is read. -/
structure Vertex where
  Position : Vec3

/-- A mesh: its ordered vertex list. -/
structure Mesh where
  vertices : List Vertex

/-- A model: its ordered mesh list. -/
structure Model where
  meshes : List Mesh

/-- The constant `FLT_MAX` of `<cfloat>`: `(2^24 - 1) * 2^104`. -/
def FLT_MAX : ℚ := 340282346638528859811704183484516925440

/-! ## Bounds (lines 43-46, 66-83) -/

/-- The globals `boundsMin`, `boundsMax`, `boundsCenter`. -/
structure Bounds where
  boundsMin : Vec3
  boundsMax : Vec3
  boundsCenter : Vec3
  deriving DecidableEq

/-- Body of the inner loop (lines 75-76 and 112-113): update of the pair
`(minBound, maxBound)` by one vertex. -/
def boundsStep (acc : Vec3 × Vec3) (vertex : Vertex) : Vec3 × Vec3 :=
  (vmin acc.1 vertex.Position, vmax acc.2 vertex.Position)

/-- The start values `minBound(FLT_MAX)`, `maxBound(-FLT_MAX)`. -/
def boundsInit : Vec3 × Vec3 := (Vec3.splat FLT_MAX, Vec3.splat (-FLT_MAX))

/-- Lines 66-83: `computeModelBounds`, returning the three globals it sets. -/
def computeModelBounds (model : Model) : Bounds :=
  let r := model.meshes.foldl (fun acc mesh => mesh.vertices.foldl boundsStep acc) boundsInit
  { boundsMin := r.1, boundsMax := r.2, boundsCenter := (r.1 + r.2) * (1/2 : ℚ) }

/-! ## Pseudo-random field (lines 85-99) -/

/-- Lines 85-88: `random01`. -/
def random01 (L : Libm) (p : Vec3) (seed : ℚ) : ℚ :=
  fract (L.sin (dot (p + Vec3.splat seed) ⟨12.9898, 78.233, 37.719⟩) * 43758.5453)

/-- Lines 92-95: the raw vector `v` of `randomDirection`. -/
def rawDirection (L : Libm) (p : Vec3) (seed : ℚ) : Vec3 :=
  ⟨random01 L p (seed + 0.123) * 2 - 1,
   random01 L p (seed + 4.321) * 2 - 1,
   random01 L p (seed + 8.765) * 2 - 1⟩

/-- Lines 90-99: `randomDirection`. -/
def randomDirection (L : Libm) (p : Vec3) (seed : ℚ) : Vec3 :=
  let v := rawDirection L p seed
  if length L v < 1e-3 then ⟨0, 1, 0⟩ else normalize L v

/-! ## Per-mesh animation data (lines 48-58, 101-133, 304-317) -/

/-- The record `MeshAnimationData`. -/
structure MeshAnimationData where
  center : Vec3
  direction : Vec3
  rotationAxis : Vec3
  rotationAmount : ℚ
  phaseOffset : ℚ
  travelScale : ℚ
  deriving DecidableEq

/-- Lines 108-116: centre of the bounding box of one mesh. -/
def meshCenter (mesh : Mesh) : Vec3 :=
  let r := mesh.vertices.foldl boundsStep boundsInit
  (r.1 + r.2) * (1/2 : ℚ)

/-- Lines 117-121: the direction of a mesh whose centre is `center`. -/
def meshDirection (L : Libm) (boundsCenter center : Vec3) : Vec3 :=
  let direction := center - boundsCenter
  if length L direction < 1e-3 then randomDirection L center 2.57 else normalize L direction

/-- The cross product that line 123 normalises. -/
def meshCross (L : Libm) (boundsCenter center : Vec3) : Vec3 :=
  cross (meshDirection L boundsCenter center) (randomDirection L center 9.31)

/-- Lines 123-125: the rotation axis. -/
def meshRotationAxis (L : Libm) (boundsCenter center : Vec3) : Vec3 :=
  let rotationAxis := normalize L (meshCross L boundsCenter center)
  if length L rotationAxis < 1e-3 then randomDirection L center 15.73 else rotationAxis

/-- Lines 108-131: the record pushed for one mesh (body of the outer loop).
`boundsCenter` is the global read at line 117. -/
def meshRecord (L : Libm) (boundsCenter : Vec3) (mesh : Mesh) : MeshAnimationData :=
  let center := meshCenter mesh
  let direction := meshDirection L boundsCenter center
  let rotationAxis := meshRotationAxis L boundsCenter center
  let travelScale := mix 0.7 1.45 (random01 L center 3.71)
  let rotationAmount := mix 0.2 1.05 (random01 L center 6.42)
  let phaseOffset := (random01 L center 9.88 - 0.5) * 1.2
  { center := center, direction := direction, rotationAxis := rotationAxis,
    rotationAmount := rotationAmount, phaseOffset := phaseOffset, travelScale := travelScale }

/-- The call `meshAnimationData.clear()`. -/
def vectorClear (_v : List MeshAnimationData) : List MeshAnimationData := []

/-- Lines 101-133: `computeMeshAnimationData`.  `meshAnimationData` is the
content of the global vector before the call; the result is its content after. -/
def computeMeshAnimationData (L : Libm) (boundsCenter : Vec3)
    (meshAnimationData : List MeshAnimationData) (model : Model) : List MeshAnimationData :=
  model.meshes.foldl (fun acc mesh => acc ++ [meshRecord L boundsCenter mesh])
    (vectorClear meshAnimationData)

/-- Lines 304-305: the resync check of the render loop. -/
def resync (L : Libm) (boundsCenter : Vec3)
    (meshAnimationData : List MeshAnimationData) (model : Model) : List MeshAnimationData :=
  if meshAnimationData.length ≠ model.meshes.length
  then computeMeshAnimationData L boundsCenter meshAnimationData model
  else meshAnimationData

/-- Lines 307-309: the reads `meshAnimationData[i]` of the per-mesh loop, in
order; `none` stands for a read past the end of the vector. -/
def perMeshReads (meshAnimationData : List MeshAnimationData) (model : Model) :
    List (Option MeshAnimationData) :=
  (List.range model.meshes.length).map (fun i => meshAnimationData[i]?)

/-! ## Vocabulary for stating the bounds property -/

/-- All vertices of a model, mesh after mesh. -/
def Model.allVertices (model : Model) : List Vertex :=
  (model.meshes.map Mesh.vertices).flatten

/-- Every component lies between `-FLT_MAX` and `FLT_MAX`, as every finite
binary32 value does. -/
def InFloatRange (v : Vec3) : Prop :=
  (-FLT_MAX ≤ v.x ∧ v.x ≤ FLT_MAX) ∧ (-FLT_MAX ≤ v.y ∧ v.y ≤ FLT_MAX) ∧
  (-FLT_MAX ≤ v.z ∧ v.z ≤ FLT_MAX)

instance (v : Vec3) : Decidable (InFloatRange v) := by
  unfold InFloatRange
  exact inferInstance

/-! ## Concrete inputs used to instantiate the theorems -/

/-- A stand-in for the C library: the sine is constant (so every raw noise
vector is zero and `randomDirection` returns its `(0,1,0)` branch) and the
square root is a table that is exact at `0`, `1` and at the two arguments met
on `stubMesh` with `stubBoundsCenter`. -/
def stubLibm : Libm where
  sin := fun _ => 5000 / 437585453
  sqrt := fun q =>
    if q = 1 then 1
    else if q = 625000050000001 then 25000001
    else if q = 100000000 / 625000050000001 then 10000 / 25000001
    else 0

/-- A mesh with the single vertex `(0,0,0)`. -/
def stubMesh : Mesh := ⟨[⟨⟨0, 0, 0⟩⟩]⟩

/-- A model centre seen from which `stubMesh` lies almost exactly along `(0,1,0)`. -/
def stubBoundsCenter : Vec3 := ⟨-10000, -24999999, 0⟩

/-- A model of three meshes, the middle one without vertices. -/
def sampleModel : Model := ⟨[⟨[⟨⟨-1, 0, 0⟩⟩]⟩, ⟨[]⟩, ⟨[⟨⟨1, 2, 3⟩⟩]⟩]⟩

/-! ## Helper lemmas: clamp -/

theorem glmClamp_bounds (x : ℚ) : 1/4 ≤ glmClamp x (1/4) 5 ∧ glmClamp x (1/4) 5 ≤ 5 := by
  unfold glmClamp glmMin glmMax
  split_ifs <;> constructor <;> linarith

theorem speedInv_init : SpeedInv initState := by
  unfold SpeedInv initState
  norm_num

theorem speedInv_processInput (s : AnimState) (k : Keys) (h : SpeedInv s) :
    SpeedInv (processInput s k) := by
  obtain ⟨h1, h2⟩ := h
  have hu := glmClamp_bounds (s.animationSpeed + 1/4)
  have hd := glmClamp_bounds (s.animationSpeed - 1/4)
  have hud := glmClamp_bounds (glmClamp (s.animationSpeed + 1/4) (1/4) 5 - 1/4)
  unfold SpeedInv processInput stepReset stepDown stepUp stepSpace
  constructor <;> (split_ifs <;> simp_all <;> norm_num)

theorem speedInv_runInputs (ks : List Keys) (s : AnimState) (h : SpeedInv s) :
    SpeedInv (runInputs s ks) := by
  induction ks generalizing s with
  | nil => simpa [runInputs] using h
  | cons k ks ih =>
    simp only [runInputs, List.foldl_cons]
    exact ih _ (speedInv_processInput s k h)

theorem speedInv_frame (s : AnimState) (k : Keys) (t : ℚ) (h : SpeedInv s) :
    SpeedInv (frame s k t) := by
  have h1 : SpeedInv { s with deltaTime := t - s.lastFrame, lastFrame := t } := h
  have h2 := speedInv_processInput _ k h1
  unfold frame
  simp only
  split_ifs
  · exact h2
  · exact h2

theorem speedInv_runFrames (fs : List (Keys × ℚ)) (s : AnimState) (h : SpeedInv s) :
    SpeedInv (runFrames s fs) := by
  induction fs generalizing s with
  | nil => simpa [runFrames] using h
  | cons f fs ih =>
    simp only [runFrames, List.foldl_cons]
    exact ih _ (speedInv_frame s f.1 f.2 h)

/-! ## Helper lemmas: what `processInput` does to each field -/

theorem processInput_deltaTime (s : AnimState) (k : Keys) :
    (processInput s k).deltaTime = s.deltaTime := by
  unfold processInput stepReset stepDown stepUp stepSpace
  split_ifs <;> rfl

theorem processInput_latches (s : AnimState) (k : Keys) :
    (processInput s k).spacePressedLast = k.space ∧
    (processInput s k).upPressedLast = k.up ∧
    (processInput s k).downPressedLast = k.down ∧
    (processInput s k).resetPressedLast = k.reset := by
  unfold processInput stepReset stepDown stepUp stepSpace
  refine ⟨?_, ?_, ?_, ?_⟩ <;> (split_ifs <;> rfl)

theorem processInput_time_of_no_reset_edge (s : AnimState) (k : Keys)
    (h : ¬ (k.reset = true ∧ s.resetPressedLast = false)) :
    (processInput s k).animationTime = s.animationTime := by
  unfold processInput stepReset stepDown stepUp stepSpace
  split_ifs <;> simp_all

theorem processInput_paused_of_held (s : AnimState) (k : Keys)
    (hs : s.spacePressedLast = true) (hr : k.reset = false) :
    (processInput s k).animationPaused = s.animationPaused := by
  unfold processInput stepReset stepDown stepUp stepSpace
  split_ifs <;> simp_all

theorem processInput_paused_of_edge (s : AnimState) (k : Keys)
    (hs : s.spacePressedLast = false) (hk : k.space = true) (hr : k.reset = false) :
    (processInput s k).animationPaused = !s.animationPaused := by
  unfold processInput stepReset stepDown stepUp stepSpace
  split_ifs <;> simp_all

theorem runInputs_paused_of_held (ks : List Keys) (s : AnimState)
    (hs : s.spacePressedLast = true)
    (hk : ∀ k ∈ ks, k.space = true ∧ k.reset = false) :
    (runInputs s ks).animationPaused = s.animationPaused := by
  induction ks generalizing s with
  | nil => rfl
  | cons k ks ih =>
    have hk0 := hk k (List.mem_cons_self k ks)
    have hl := (processInput_latches s k).1
    simp only [runInputs, List.foldl_cons]
    have := ih (processInput s k) (by rw [hl]; exact hk0.1)
      (fun k1 h1 => hk k1 (List.mem_cons_of_mem k h1))
    simp only [runInputs] at this
    rw [this]
    exact processInput_paused_of_held s k hs hk0.2

theorem processInput_space_held (s : AnimState) (k : Keys)
    (hl : s.spacePressedLast = true) (hk : k.space = true) :
    processInput s k =
      { processInput s { k with space := false } with spacePressedLast := true } := by
  obtain ⟨dt, lf, p, sp, t, l1, l2, l3, l4⟩ := s
  obtain ⟨a, b, c, d⟩ := k
  simp only at hl hk
  subst hl hk
  cases l2 <;> cases l3 <;> cases l4 <;> cases b <;> cases c <;> cases d <;> rfl

theorem processInput_up_held (s : AnimState) (k : Keys)
    (hl : s.upPressedLast = true) (hk : k.up = true) :
    processInput s k =
      { processInput s { k with up := false } with upPressedLast := true } := by
  obtain ⟨dt, lf, p, sp, t, l1, l2, l3, l4⟩ := s
  obtain ⟨a, b, c, d⟩ := k
  simp only at hl hk
  subst hl hk
  cases l1 <;> cases l3 <;> cases l4 <;> cases a <;> cases c <;> cases d <;> rfl

theorem processInput_down_held (s : AnimState) (k : Keys)
    (hl : s.downPressedLast = true) (hk : k.down = true) :
    processInput s k =
      { processInput s { k with down := false } with downPressedLast := true } := by
  obtain ⟨dt, lf, p, sp, t, l1, l2, l3, l4⟩ := s
  obtain ⟨a, b, c, d⟩ := k
  simp only at hl hk
  subst hl hk
  cases l1 <;> cases l2 <;> cases l4 <;> cases a <;> cases b <;> cases d <;> rfl

theorem processInput_reset_held (s : AnimState) (k : Keys)
    (hl : s.resetPressedLast = true) (hk : k.reset = true) :
    processInput s k =
      { processInput s { k with reset := false } with resetPressedLast := true } := by
  obtain ⟨dt, lf, p, sp, t, l1, l2, l3, l4⟩ := s
  obtain ⟨a, b, c, d⟩ := k
  simp only at hl hk
  subst hl hk
  cases l1 <;> cases l2 <;> cases l3 <;> cases a <;> cases b <;> cases c <;> rfl

/-! ## Exactness of the rational model on reachable speeds -/

theorem quarter_up (n : ℕ) (h1 : 1 ≤ n) (h20 : n ≤ 20) :
    ∃ m : ℕ, 1 ≤ m ∧ m ≤ 20 ∧ glmClamp ((n : ℚ) / 4 + 1/4) (1/4) 5 = (m : ℚ) / 4 := by
  have h1q : (1 : ℚ) ≤ n := by exact_mod_cast h1
  rcases Nat.lt_or_ge n 20 with h | h
  · refine ⟨n + 1, by omega, by omega, ?_⟩
    have hq : (n : ℚ) + 1 ≤ 20 := by exact_mod_cast h
    unfold glmClamp glmMin glmMax
    push_cast
    split_ifs <;> linarith
  · refine ⟨20, by omega, by omega, ?_⟩
    have hn : n = 20 := by omega
    subst hn
    unfold glmClamp glmMin glmMax
    norm_num

theorem quarter_down (n : ℕ) (h1 : 1 ≤ n) (h20 : n ≤ 20) :
    ∃ m : ℕ, 1 ≤ m ∧ m ≤ 20 ∧ glmClamp ((n : ℚ) / 4 - 1/4) (1/4) 5 = (m : ℚ) / 4 := by
  have h20q : (n : ℚ) ≤ 20 := by exact_mod_cast h20
  rcases Nat.lt_or_ge 1 n with h | h
  · refine ⟨n - 1, by omega, by omega, ?_⟩
    have hq : (2 : ℚ) ≤ n := by exact_mod_cast h
    have hc : ((n - 1 : ℕ) : ℚ) = (n : ℚ) - 1 := by
      rw [Nat.cast_sub (by omega)]
      norm_num
    unfold glmClamp glmMin glmMax
    rw [hc]
    split_ifs <;> linarith
  · refine ⟨1, by omega, by omega, ?_⟩
    have hn : n = 1 := by omega
    subst hn
    unfold glmClamp glmMin glmMax
    norm_num

theorem quarterInv_stepUp (s : AnimState) (b : Bool) (h : QuarterInv s) :
    QuarterInv (stepUp s b) := by
  obtain ⟨n, h1, h20, hn⟩ := h
  unfold stepUp QuarterInv
  simp only
  split_ifs
  · obtain ⟨m, hm1, hm20, hm⟩ := quarter_up n h1 h20
    exact ⟨m, hm1, hm20, by simpa [hn] using hm⟩
  · exact ⟨n, h1, h20, hn⟩

theorem quarterInv_stepDown (s : AnimState) (b : Bool) (h : QuarterInv s) :
    QuarterInv (stepDown s b) := by
  obtain ⟨n, h1, h20, hn⟩ := h
  unfold stepDown QuarterInv
  simp only
  split_ifs
  · obtain ⟨m, hm1, hm20, hm⟩ := quarter_down n h1 h20
    exact ⟨m, hm1, hm20, by simpa [hn] using hm⟩
  · exact ⟨n, h1, h20, hn⟩

theorem quarterInv_processInput (s : AnimState) (k : Keys) (h : QuarterInv s) :
    QuarterInv (processInput s k) := by
  have h1 : QuarterInv (stepSpace s k.space) := by
    unfold stepSpace QuarterInv
    simp only
    split_ifs <;> exact h
  have h2 := quarterInv_stepDown _ k.down (quarterInv_stepUp _ k.up h1)
  unfold processInput stepReset QuarterInv
  simp only
  split_ifs
  · exact ⟨4, by omega, by omega, by norm_num⟩
  · exact h2

/-- Every speed the state machine can reach is `n / 4` with `1 ≤ n ≤ 20`, a
value binary32 holds exactly, as is the intermediate sum or difference
(`(n ± 1) / 4`): the exact arithmetic of the embedding coincides with the
rounded arithmetic of the source on all reachable states. -/
theorem quarterInv_runInputs (ks : List Keys) :
    QuarterInv (runInputs initState ks) := by
  have key : ∀ (l : List Keys) (s : AnimState), QuarterInv s → QuarterInv (runInputs s l) := by
    intro l
    induction l with
    | nil => intro s h; simpa [runInputs] using h
    | cons k l ih =>
      intro s h
      simp only [runInputs, List.foldl_cons]
      exact ih _ (quarterInv_processInput s k h)
  exact key ks initState ⟨4, by omega, by omega, by norm_num [initState]⟩

/-! ## Claims on the animation state machine -/

/-- C1: starting from the initial state (speed 1.0), after every call of any
finite sequence of `processInput` calls with arbitrary key states, the
animation speed satisfies `0.25 ≤ animationSpeed ≤ 5.0`; the same holds after
every frame of the render loop, where the clock update runs between the calls. -/
theorem animationSpeed_always_in_range :
    (∀ (ks : List Keys) (n : ℕ),
      (0.25 : ℚ) ≤ (runInputs initState (ks.take n)).animationSpeed ∧
      (runInputs initState (ks.take n)).animationSpeed ≤ (5.0 : ℚ)) ∧
    (∀ (fs : List (Keys × ℚ)) (n : ℕ),
      (0.25 : ℚ) ≤ (runFrames initState (fs.take n)).animationSpeed ∧
      (runFrames initState (fs.take n)).animationSpeed ≤ (5.0 : ℚ)) := by
  have e1 : (0.25 : ℚ) = 1 / 4 := by norm_num
  have e2 : (5.0 : ℚ) = 5 := by norm_num
  rw [e1, e2]
  exact ⟨fun ks n => speedInv_runInputs (ks.take n) initState speedInv_init,
    fun fs n => speedInv_runFrames (fs.take n) initState speedInv_init⟩

/-- C2: for every prior state and whatever the other keys do, a call of
`processInput` in which the reset key is pressed while its latch is clear
leaves speed 1.0, clock 0.0 and the pause flag false; the latch is clear in
the initial state and after any call in which the key was not pressed, so
this covers every call where the key is pressed now and was not pressed in
the previous call. -/
theorem reset_edge_restores_defaults :
    (∀ (s : AnimState) (k : Keys), k.reset = true → s.resetPressedLast = false →
      (processInput s k).animationSpeed = 1 ∧
      (processInput s k).animationTime = 0 ∧
      (processInput s k).animationPaused = false) ∧
    (∀ (s : AnimState) (k0 k : Keys), k0.reset = false → k.reset = true →
      (processInput (processInput s k0) k).animationSpeed = 1 ∧
      (processInput (processInput s k0) k).animationTime = 0 ∧
      (processInput (processInput s k0) k).animationPaused = false) ∧
    (∀ (k : Keys), k.reset = true →
      (processInput initState k).animationSpeed = 1 ∧
      (processInput initState k).animationTime = 0 ∧
      (processInput initState k).animationPaused = false) := by
  have main : ∀ (s : AnimState) (k : Keys), k.reset = true → s.resetPressedLast = false →
      (processInput s k).animationSpeed = 1 ∧
      (processInput s k).animationTime = 0 ∧
      (processInput s k).animationPaused = false := by
    intro s k hnow hprev
    unfold processInput stepReset stepDown stepUp stepSpace
    refine ⟨?_, ?_, ?_⟩ <;> (split_ifs <;> simp_all)
  refine ⟨main, ?_, ?_⟩
  · intro s k0 k h0 h
    have hl := (processInput_latches s k0).2.2.2
    rw [h0] at hl
    exact main _ k h hl
  · intro k h
    exact main initState k h rfl

/-- Witness for C2: a paused state at speed 3.5 with clock 42, reset pressed
together with all other keys. -/
theorem reset_edge_restores_defaults_witness :
    (processInput ⟨1/60, 7, true, 7/2, 42, true, false, true, false⟩
        ⟨true, true, true, true⟩).animationSpeed = 1 ∧
    (processInput ⟨1/60, 7, true, 7/2, 42, true, false, true, false⟩
        ⟨true, true, true, true⟩).animationTime = 0 ∧
    (processInput ⟨1/60, 7, true, 7/2, 42, true, false, true, false⟩
        ⟨true, true, true, true⟩).animationPaused = false :=
  reset_edge_restores_defaults.1 ⟨1/60, 7, true, 7/2, 42, true, false, true, false⟩
    ⟨true, true, true, true⟩ rfl rfl

/-- C9: key actions are edge-triggered.  For each of the four keys, when the
key is reported pressed in two consecutive `processInput` calls, the second
call ends in the state it would have ended in with that key released, except
for the key's own latch: nothing is done on account of the key.  After any
call each latch holds the key state of that call, so an action can fire only
in a call that follows one where the key was released.  Holding the pause key
over `n ≥ 1` consecutive calls that start with the latch clear (and without
the reset key) leaves the pause flag toggled exactly once, for every `n`. -/
theorem key_actions_edge_triggered :
    (∀ (s : AnimState) (k1 k2 : Keys), k1.space = true → k2.space = true →
      processInput (processInput s k1) k2 =
        { processInput (processInput s k1) { k2 with space := false } with
          spacePressedLast := true }) ∧
    (∀ (s : AnimState) (k1 k2 : Keys), k1.up = true → k2.up = true →
      processInput (processInput s k1) k2 =
        { processInput (processInput s k1) { k2 with up := false } with
          upPressedLast := true }) ∧
    (∀ (s : AnimState) (k1 k2 : Keys), k1.down = true → k2.down = true →
      processInput (processInput s k1) k2 =
        { processInput (processInput s k1) { k2 with down := false } with
          downPressedLast := true }) ∧
    (∀ (s : AnimState) (k1 k2 : Keys), k1.reset = true → k2.reset = true →
      processInput (processInput s k1) k2 =
        { processInput (processInput s k1) { k2 with reset := false } with
          resetPressedLast := true }) ∧
    (∀ (s : AnimState) (k : Keys),
      (processInput s k).spacePressedLast = k.space ∧
      (processInput s k).upPressedLast = k.up ∧
      (processInput s k).downPressedLast = k.down ∧
      (processInput s k).resetPressedLast = k.reset) ∧
    (∀ (s : AnimState) (ks : List Keys), s.spacePressedLast = false → ks ≠ [] →
      (∀ k ∈ ks, k.space = true ∧ k.reset = false) →
      (runInputs s ks).animationPaused = !s.animationPaused) := by
  refine ⟨?_, ?_, ?_, ?_, processInput_latches, ?_⟩
  · intro s k1 k2 h1 h2
    have hl := (processInput_latches s k1).1
    rw [h1] at hl
    exact processInput_space_held (processInput s k1) k2 hl h2
  · intro s k1 k2 h1 h2
    have hl := (processInput_latches s k1).2.1
    rw [h1] at hl
    exact processInput_up_held (processInput s k1) k2 hl h2
  · intro s k1 k2 h1 h2
    have hl := (processInput_latches s k1).2.2.1
    rw [h1] at hl
    exact processInput_down_held (processInput s k1) k2 hl h2
  · intro s k1 k2 h1 h2
    have hl := (processInput_latches s k1).2.2.2
    rw [h1] at hl
    exact processInput_reset_held (processInput s k1) k2 hl h2
  · intro s ks hs hne hk
    cases ks with
    | nil => exact absurd rfl hne
    | cons k ks =>
      have hk0 := hk k (List.mem_cons_self k ks)
      have hl := (processInput_latches s k).1
      have hrest := runInputs_paused_of_held ks (processInput s k) (by rw [hl]; exact hk0.1)
        (fun k1 h1 => hk k1 (List.mem_cons_of_mem k h1))
      simp only [runInputs, List.foldl_cons]
      simp only [runInputs] at hrest
      rw [hrest]
      exact processInput_paused_of_edge s k hs hk0.1 hk0.2

/-- Witness for C9: from the initial state, the pause key held for three calls
(with the speed keys also in play) leaves the animation paused. -/
theorem key_actions_edge_triggered_witness :
    (runInputs initState
      [⟨true, false, false, false⟩, ⟨true, true, false, false⟩,
       ⟨true, true, true, false⟩]).animationPaused = !initState.animationPaused :=
  key_actions_edge_triggered.2.2.2.2.2 initState
    [⟨true, false, false, false⟩, ⟨true, true, false, false⟩, ⟨true, true, true, false⟩]
    rfl (by simp) (by simp)

theorem glmMin_eq_min (x y : ℚ) : glmMin x y = min x y := by
  unfold glmMin
  split_ifs with h
  · exact (min_eq_right (le_of_lt h)).symm
  · exact (min_eq_left (not_lt.mp h)).symm

theorem glmMax_eq_max (x y : ℚ) : glmMax x y = max x y := by
  unfold glmMax
  split_ifs with h
  · exact (max_eq_right (le_of_lt h)).symm
  · exact (max_eq_left (not_lt.mp h)).symm

/-- A running minimum is below its start value and every element, and is the
start value or one of the elements. -/
theorem foldl_glmMin_spec (f : Vertex → ℚ) (vs : List Vertex) (a : ℚ) :
    vs.foldl (fun m v => glmMin m (f v)) a ≤ a ∧
    (∀ v ∈ vs, vs.foldl (fun m v => glmMin m (f v)) a ≤ f v) ∧
    (vs.foldl (fun m v => glmMin m (f v)) a = a ∨
      ∃ v ∈ vs, f v = vs.foldl (fun m v => glmMin m (f v)) a) := by
  induction vs generalizing a with
  | nil => simp
  | cons w ws ih =>
    obtain ⟨h1, h2, h3⟩ := ih (glmMin a (f w))
    have hle : glmMin a (f w) ≤ a := by rw [glmMin_eq_min]; exact min_le_left _ _
    have hlw : glmMin a (f w) ≤ f w := by rw [glmMin_eq_min]; exact min_le_right _ _
    simp only [List.foldl_cons]
    refine ⟨le_trans h1 hle, ?_, ?_⟩
    · intro v hv
      rcases List.mem_cons.mp hv with rfl | hv
      · exact le_trans h1 hlw
      · exact h2 v hv
    · rcases h3 with h3 | ⟨v, hv, hfv⟩
      · rcases min_choice a (f w) with hc | hc
        · left
          rw [h3, glmMin_eq_min, hc]
        · right
          exact ⟨w, List.mem_cons_self w ws, by rw [h3, glmMin_eq_min, hc]⟩
      · right
        exact ⟨v, List.mem_cons_of_mem w hv, hfv⟩

/-- A running maximum is above its start value and every element, and is the
start value or one of the elements. -/
theorem foldl_glmMax_spec (f : Vertex → ℚ) (vs : List Vertex) (a : ℚ) :
    a ≤ vs.foldl (fun m v => glmMax m (f v)) a ∧
    (∀ v ∈ vs, f v ≤ vs.foldl (fun m v => glmMax m (f v)) a) ∧
    (vs.foldl (fun m v => glmMax m (f v)) a = a ∨
      ∃ v ∈ vs, f v = vs.foldl (fun m v => glmMax m (f v)) a) := by
  induction vs generalizing a with
  | nil => simp
  | cons w ws ih =>
    obtain ⟨h1, h2, h3⟩ := ih (glmMax a (f w))
    have hle : a ≤ glmMax a (f w) := by rw [glmMax_eq_max]; exact le_max_left _ _
    have hlw : f w ≤ glmMax a (f w) := by rw [glmMax_eq_max]; exact le_max_right _ _
    simp only [List.foldl_cons]
    refine ⟨le_trans hle h1, ?_, ?_⟩
    · intro v hv
      rcases List.mem_cons.mp hv with rfl | hv
      · exact le_trans hlw h1
      · exact h2 v hv
    · rcases h3 with h3 | ⟨v, hv, hfv⟩
      · rcases max_choice a (f w) with hc | hc
        · left
          rw [h3, glmMax_eq_max, hc]
        · right
          exact ⟨w, List.mem_cons_self w ws, by rw [h3, glmMax_eq_max, hc]⟩
      · right
        exact ⟨v, List.mem_cons_of_mem w hv, hfv⟩

/-- The vector fold of the source is, in each component, a scalar running
minimum (first half of the pair) or maximum (second half). -/
theorem foldl_boundsStep_components (vs : List Vertex) (acc : Vec3 × Vec3) :
    (vs.foldl boundsStep acc).1.x = vs.foldl (fun m v => glmMin m v.Position.x) acc.1.x ∧
    (vs.foldl boundsStep acc).1.y = vs.foldl (fun m v => glmMin m v.Position.y) acc.1.y ∧
    (vs.foldl boundsStep acc).1.z = vs.foldl (fun m v => glmMin m v.Position.z) acc.1.z ∧
    (vs.foldl boundsStep acc).2.x = vs.foldl (fun m v => glmMax m v.Position.x) acc.2.x ∧
    (vs.foldl boundsStep acc).2.y = vs.foldl (fun m v => glmMax m v.Position.y) acc.2.y ∧
    (vs.foldl boundsStep acc).2.z = vs.foldl (fun m v => glmMax m v.Position.z) acc.2.z := by
  induction vs generalizing acc with
  | nil => simp
  | cons w ws ih =>
    simp only [List.foldl_cons]
    have h := ih (boundsStep acc w)
    simpa [boundsStep, vmin, vmax] using h

/-- The nested loops of `computeModelBounds` visit the concatenation of the
vertex lists. -/
theorem foldl_meshes_eq_foldl_flatten (meshes : List Mesh) (acc : Vec3 × Vec3) :
    meshes.foldl (fun a mesh => mesh.vertices.foldl boundsStep a) acc =
      (meshes.map Mesh.vertices).flatten.foldl boundsStep acc := by
  induction meshes generalizing acc with
  | nil => rfl
  | cons m ms ih =>
    simp only [List.foldl_cons, List.map_cons, List.flatten, List.foldl_append]
    exact ih _

theorem Vec3.add_def (a b : Vec3) : a + b = ⟨a.x + b.x, a.y + b.y, a.z + b.z⟩ := rfl

theorem Vec3.sub_def (a b : Vec3) : a - b = ⟨a.x - b.x, a.y - b.y, a.z - b.z⟩ := rfl

theorem Vec3.mul_def (a b : Vec3) : a * b = ⟨a.x * b.x, a.y * b.y, a.z * b.z⟩ := rfl

theorem Vec3.scale_def (v : Vec3) (c : ℚ) : v * c = ⟨v.x * c, v.y * c, v.z * c⟩ := rfl

theorem running_min_attained (f : Vertex → ℚ) (vs : List Vertex) (hne : vs ≠ [])
    (hfin : ∀ v ∈ vs, f v ≤ FLT_MAX) :
    (∀ v ∈ vs, vs.foldl (fun m v => glmMin m (f v)) FLT_MAX ≤ f v) ∧
    ∃ v ∈ vs, f v = vs.foldl (fun m v => glmMin m (f v)) FLT_MAX := by
  obtain ⟨_, h2, h3⟩ := foldl_glmMin_spec f vs FLT_MAX
  refine ⟨h2, ?_⟩
  rcases h3 with h3 | h3
  · obtain ⟨w, hw⟩ := List.exists_mem_of_ne_nil vs hne
    refine ⟨w, hw, le_antisymm ?_ (h2 w hw)⟩
    rw [h3]
    exact hfin w hw
  · exact h3

theorem running_max_attained (f : Vertex → ℚ) (vs : List Vertex) (hne : vs ≠ [])
    (hfin : ∀ v ∈ vs, -FLT_MAX ≤ f v) :
    (∀ v ∈ vs, f v ≤ vs.foldl (fun m v => glmMax m (f v)) (-FLT_MAX)) ∧
    ∃ v ∈ vs, f v = vs.foldl (fun m v => glmMax m (f v)) (-FLT_MAX) := by
  obtain ⟨_, h2, h3⟩ := foldl_glmMax_spec f vs (-FLT_MAX)
  refine ⟨h2, ?_⟩
  rcases h3 with h3 | h3
  · obtain ⟨w, hw⟩ := List.exists_mem_of_ne_nil vs hne
    refine ⟨w, hw, le_antisymm (h2 w hw) ?_⟩
    rw [h3]
    exact hfin w hw
  · exact h3

theorem foldl_push_eq_append_map (L : Libm) (bc : Vec3) (meshes : List Mesh)
    (acc : List MeshAnimationData) :
    meshes.foldl (fun a mesh => a ++ [meshRecord L bc mesh]) acc =
      acc ++ meshes.map (meshRecord L bc) := by
  induction meshes generalizing acc with
  | nil => simp
  | cons m ms ih =>
    simp only [List.foldl_cons, List.map_cons]
    rw [ih]
    simp

theorem computeMeshAnimationData_eq_map (L : Libm) (bc : Vec3)
    (old : List MeshAnimationData) (model : Model) :
    computeMeshAnimationData L bc old model = model.meshes.map (meshRecord L bc) := by
  unfold computeMeshAnimationData vectorClear
  rw [foldl_push_eq_append_map]
  simp

theorem resync_length (L : Libm) (bc : Vec3) (data : List MeshAnimationData) (model : Model) :
    (resync L bc data model).length = model.meshes.length := by
  unfold resync
  split_ifs with h
  · rw [computeMeshAnimationData_eq_map, List.length_map]
  · exact not_not.mp h

/-- C7: whatever the vector held before, `computeMeshAnimationData` returns
exactly one record per mesh, the `i`-th one computed from the `i`-th mesh
(nothing of the old content survives); and after the resync check of the
render loop the vector has as many entries as the model has meshes, so every
read `meshAnimationData[i]` with `i` below the mesh count finds an entry. -/
theorem meshAnimationData_matches_meshes :
    (∀ (L : Libm) (bc : Vec3) (old : List MeshAnimationData) (model : Model),
      computeMeshAnimationData L bc old model = model.meshes.map (meshRecord L bc)) ∧
    (∀ (L : Libm) (bc : Vec3) (old : List MeshAnimationData) (model : Model),
      (computeMeshAnimationData L bc old model).length = model.meshes.length) ∧
    (∀ (L : Libm) (bc : Vec3) (old : List MeshAnimationData) (model : Model) (i : ℕ)
      (h : i < model.meshes.length),
      (computeMeshAnimationData L bc old model)[i]? =
        some (meshRecord L bc (model.meshes.get ⟨i, h⟩))) ∧
    (∀ (L : Libm) (bc : Vec3) (data : List MeshAnimationData) (model : Model),
      (resync L bc data model).length = model.meshes.length) ∧
    (∀ (L : Libm) (bc : Vec3) (data : List MeshAnimationData) (model : Model),
      ∀ r ∈ perMeshReads (resync L bc data model) model, r ≠ none) := by
  refine ⟨computeMeshAnimationData_eq_map, ?_, ?_, resync_length, ?_⟩
  · intro L bc old model
    rw [computeMeshAnimationData_eq_map, List.length_map]
  · intro L bc old model i h
    rw [computeMeshAnimationData_eq_map, List.getElem?_map, List.getElem?_eq_getElem h]
    rfl
  · intro L bc data model r hr
    unfold perMeshReads at hr
    obtain ⟨i, hi, rfl⟩ := List.mem_map.mp hr
    have hlt : i < (resync L bc data model).length := by
      rw [resync_length]
      exact List.mem_range.mp hi
    rw [List.getElem?_eq_getElem hlt]
    exact Option.some_ne_none _

/-- Witness for C7: the record at index 2 of a regenerated list, with one
stale record stored before, is the record of the third mesh of the sample
model. -/
theorem meshAnimationData_matches_meshes_witness :
    (computeMeshAnimationData stubLibm stubBoundsCenter
        [meshRecord stubLibm stubBoundsCenter stubMesh] sampleModel)[2]? =
      some (meshRecord stubLibm stubBoundsCenter
        (sampleModel.meshes.get ⟨2, by decide⟩)) :=
  meshAnimationData_matches_meshes.2.2.1 stubLibm stubBoundsCenter
    [meshRecord stubLibm stubBoundsCenter stubMesh] sampleModel 2 (by decide)

/-! ## Rotation axis: the length test comes after the normalisation -/

/-- With an exact square root at `dot v v`, a non-zero vector is normalised
to a vector whose dot product with itself is 1. -/
theorem dot_normalize_self (L : Libm) (v : Vec3) (hv : dot v v ≠ 0)
    (hs : L.sqrt (dot v v) * L.sqrt (dot v v) = dot v v) :
    dot (normalize L v) (normalize L v) = 1 := by
  have hne : L.sqrt (dot v v) ≠ 0 := by
    intro h0
    rw [h0, mul_zero] at hs
    exact hv hs.symm
  have key : dot (normalize L v) (normalize L v) =
      dot v v / (L.sqrt (dot v v) * L.sqrt (dot v v)) := by
    simp only [normalize, inversesqrt, dot, Vec3.mul_def, Vec3.scale_def]
    field_simp
  rw [key, hs]
  exact div_self hv

/-- C8 (what the code does): line 124 measures the vector that line 123 has
already normalised.  Whenever the cross product `c` is not the zero vector
and the square root is exact at `dot c c` and at `1`, the normalised vector
has length 1, the test `length < 1e-3` fails, and the rotation axis of the
mesh is `normalize(c)`: however short `c` is, `randomDirection(center, 15.73)`
is not used. -/
theorem rotationAxis_is_normalized_cross (L : Libm) (boundsCenter : Vec3) (mesh : Mesh)
    (hc : dot (meshCross L boundsCenter (meshCenter mesh))
            (meshCross L boundsCenter (meshCenter mesh)) ≠ 0)
    (hs : L.sqrt (dot (meshCross L boundsCenter (meshCenter mesh))
              (meshCross L boundsCenter (meshCenter mesh))) *
          L.sqrt (dot (meshCross L boundsCenter (meshCenter mesh))
              (meshCross L boundsCenter (meshCenter mesh))) =
          dot (meshCross L boundsCenter (meshCenter mesh))
            (meshCross L boundsCenter (meshCenter mesh)))
    (h1 : L.sqrt 1 = 1) :
    (meshRecord L boundsCenter mesh).rotationAxis =
        normalize L (meshCross L boundsCenter (meshCenter mesh)) ∧
    length L (meshRecord L boundsCenter mesh).rotationAxis = 1 := by
  have hlen : length L (normalize L (meshCross L boundsCenter (meshCenter mesh))) = 1 := by
    unfold length
    rw [dot_normalize_self L _ hc hs, h1]
  have hax : (meshRecord L boundsCenter mesh).rotationAxis =
      normalize L (meshCross L boundsCenter (meshCenter mesh)) := by
    simp only [meshRecord, meshRotationAxis]
    rw [if_neg]
    rw [hlen]
    norm_num
  exact ⟨hax, by rw [hax, hlen]⟩

theorem stub_random01 (p : Vec3) (seed : ℚ) : random01 stubLibm p seed = 1 / 2 := by
  have h : (5000 / 437585453 : ℚ) * 43758.5453 = 1 / 2 := by norm_num
  have hf : ⌊(1 / 2 : ℚ)⌋ = 0 := by
    rw [Int.floor_eq_iff]
    norm_num
  simp only [random01, stubLibm, fract, h, hf]
  norm_num

theorem stub_randomDirection (p : Vec3) (seed : ℚ) :
    randomDirection stubLibm p seed = ⟨0, 1, 0⟩ := by
  have hraw : rawDirection stubLibm p seed = ⟨0, 0, 0⟩ := by
    simp only [rawDirection, stub_random01]
    norm_num
  simp only [randomDirection, hraw, length, dot, Vec3.mul_def]
  norm_num [stubLibm]

theorem stub_meshCenter : meshCenter stubMesh = ⟨0, 0, 0⟩ := by
  simp only [meshCenter, stubMesh, List.foldl_cons, List.foldl_nil, boundsStep, boundsInit,
    vmin, vmax, glmMin, glmMax, Vec3.splat, FLT_MAX, Vec3.add_def, Vec3.scale_def]
  norm_num

theorem stub_meshCross :
    meshCross stubLibm stubBoundsCenter (meshCenter stubMesh) = ⟨0, 0, 10000 / 25000001⟩ := by
  rw [stub_meshCenter]
  simp only [meshCross, meshDirection, stub_randomDirection, stubBoundsCenter, Vec3.sub_def,
    length, normalize, inversesqrt, dot, cross, Vec3.mul_def, Vec3.scale_def]
  norm_num [stubLibm]

/-- Witness for C8: on the stub input the cross product has length
`10000 / 25000001` (about `4e-4`, below `1e-3`) and is not zero; the rotation
axis is its normalisation `(0,0,1)` and differs from
`randomDirection(center, 15.73)`. -/
theorem rotationAxis_is_normalized_cross_witness :
    length stubLibm (meshCross stubLibm stubBoundsCenter (meshCenter stubMesh)) < 1e-3 ∧
    (meshRecord stubLibm stubBoundsCenter stubMesh).rotationAxis =
      normalize stubLibm (meshCross stubLibm stubBoundsCenter (meshCenter stubMesh)) ∧
    (meshRecord stubLibm stubBoundsCenter stubMesh).rotationAxis ≠
      randomDirection stubLibm (meshCenter stubMesh) 15.73 := by
  have hd : dot (meshCross stubLibm stubBoundsCenter (meshCenter stubMesh))
      (meshCross stubLibm stubBoundsCenter (meshCenter stubMesh)) =
      100000000 / 625000050000001 := by
    rw [stub_meshCross]
    simp only [dot, Vec3.mul_def]
    norm_num
  have hsq : stubLibm.sqrt (100000000 / 625000050000001) = 10000 / 25000001 := by
    norm_num [stubLibm]
  have h := rotationAxis_is_normalized_cross stubLibm stubBoundsCenter stubMesh
    (by rw [hd]; norm_num) (by rw [hd, hsq]; norm_num) (by norm_num [stubLibm])
  refine ⟨?_, h.1, ?_⟩
  · unfold length
    rw [hd, hsq]
    norm_num
  · rw [h.1, stub_randomDirection, stub_meshCross]
    simp only [normalize, inversesqrt, dot, Vec3.mul_def, Vec3.scale_def]
    norm_num [stubLibm]

end CarViewer
